import Mathlib

/-!
# A verification development for the `tsvm` LC-3 toolchain

Shallow embedding of the LC-3 assembler (lexer, pass 1, pass 2) and of the
LC-3 virtual machine of the `tsvm` repository, together with theorems about
the behaviour of the embedded code.

The embedding mirrors, statement by statement, the TypeScript sources:
`src/assembler/lexer.ts`, the assembler (`Assembler` class), and `src/cpu.ts`.
JavaScript `number` values flowing through the assembler can be `NaN`
(location counter outside `.ORIG`/`.END`, failed `parseInt`) or `undefined`
(missing symbol-table entries); both behave identically in every arithmetic
or comparison context that the assembler uses, so they are modelled uniformly
by `Option Int` with `none` standing for `NaN`/`undefined`.

Looping constructs of the sources are embedded with an explicit fuel
parameter so that every definition is structurally recursive and fully
evaluable by the kernel; dedicated theorems show the fuel chosen by the
wrapper functions is never exhausted where a claim depends on it.
-/

namespace LC3

/-- Error outcomes of the embedded toolchain.  The sources throw `Error`
objects with message strings; here each `throw` site gets a constructor.
`lexFuel`/`passFuel` are artifacts of the fuel-based embedding and are shown
unreachable where needed. -/
inductive AsmErr where
  | lexFuel
  | badEscape
  | passFuel
  | unexpectedToken (text : String)
  | numberOutOfRange (n : Int)
  | unsignedExpected (n : Int)
  | endOfTokens
deriving DecidableEq, Repr

/-- `TokenType` from src/assembler/lexer.ts. -/
inductive TokenType where
  | ORIG | FILL | STRINGZ | BLKW | END | NEW_LINE
  | DECIMAL | HEX | BINARY | OPCODE | REGISTER | LABEL | STRING | EOF
deriving DecidableEq, Repr

/-- `Token` from src/assembler/lexer.ts. -/
structure Token where
  type : TokenType
  text : String
deriving DecidableEq, Repr

/-- `Lexer.OPCODES`. -/
def OPCODES : List String :=
  ["add", "and", "not", "ld", "ldr", "ldi", "st", "str", "sti", "lea",
   "trap", "halt", "getc", "out", "puts", "in", "putsp", "jmp", "ret",
   "rti", "jsr", "jsrr", "br", "brz", "brp", "brn", "brnz", "brnp",
   "brzp", "brnzp"]

/-- `Lexer.REGISTER_NAMES`. -/
def REGISTER_NAMES : List String :=
  ["r0", "r1", "r2", "r3", "r4", "r5", "r6", "r7"]

/-- `Lexer.TOKEN_MATCHERS`. -/
def TOKEN_MATCHERS : List (String × TokenType) :=
  [(".orig", TokenType.ORIG), (".fill", TokenType.FILL),
   (".stringz", TokenType.STRINGZ), (".blkw", TokenType.BLKW),
   (".end", TokenType.END)]

/-- Per-character lower casing; the sources only ever feed ASCII through
`toLowerCase`, for which Lean's `Char.toLower` agrees with JavaScript. -/
def charLower (c : Char) : Char := c.toLower

/-- `Lexer.isTokenSeparator`: true for space, tab, newline, carriage
return (the source's first test, whose `undefined` disjunct is absorbed by
the list representation of the remaining input), and for comma and
semicolon (its second test). -/
def isTokenSeparator (c : Char) : Bool :=
  match c with
  | ' ' | '\t' | '\n' | '\r' => true
  | ',' | ';' => true
  | _ => false

/-- `lookaheadString`: case-insensitive match of `key` against the next
characters; fails if the input runs out first. -/
def lookaheadKey (key : String) (cs : List Char) : Bool :=
  (cs.take key.length).map charLower == key.data

/-- The `TOKEN_MATCHERS` loop of `tokenize`: every matcher is tried in
order, and each successful match advances the position (the source does not
break out of the loop after a match). -/
def matchDirs : List (String × TokenType) → List Char → List Token →
    List Char × List Token × Bool
  | [], cs, acc => (cs, acc, false)
  | (key, ty) :: ms, cs, acc =>
    if lookaheadKey key cs then
      let r := matchDirs ms (cs.drop key.length) (acc ++ [⟨ty, key⟩])
      (r.1, r.2.1, true)
    else
      matchDirs ms cs acc

/-- The escape table of `tokenize`'s string-literal loop. -/
def ESCAPES : List (Char × Char) :=
  [('0', Char.ofNat 0), ('n', '\n'), ('r', '\r'), ('"', '"'),
   ('\\', '\\'), ('e', Char.ofNat 27)]

/-- The string-literal scanning loop of `tokenize`.  Stops at `"`, newline
or end of input and then skips the terminator (the source's unconditional
`currentPosition++`).  On a backslash the next character is consumed: if the
input has ended the source throws (`escapeSequence === undefined`); if the
character is not in the escape table the source pushes `undefined`, which
`Array.join` later renders as the empty string, i.e. the character is
silently dropped. -/
def scanString : List Char → Except AsmErr (List Char × List Char)
  | [] => .ok ([], [])
  | c :: cs =>
    if c = '"' ∨ c = '\n' then .ok ([], cs)
    else if c = '\\' then
      match cs with
      | [] => .error .badEscape
      | e :: cs2 =>
        match scanString cs2 with
        | .error err => .error err
        | .ok (content, rest) =>
          match ESCAPES.find? (fun p => p.1 == e) with
          | some p => .ok (p.2 :: content, rest)
          | none => .ok (content, rest)
    else
      match scanString cs with
      | .error err => .error err
      | .ok (content, rest) => .ok (c :: content, rest)

/-- Decimal digit test (`[0-9]` of the number regexes). -/
def isDigitCh (c : Char) : Bool := '0' ≤ c && c ≤ '9'

/-- Hex digit test (`[0-9a-fA-F]`). -/
def isHexDigitCh (c : Char) : Bool :=
  isDigitCh c || ('a' ≤ c && c ≤ 'f') || ('A' ≤ c && c ≤ 'F')

/-- Binary digit test (`(?:0|1)`). -/
def isBinDigitCh (c : Char) : Bool := c == '0' || c == '1'

/-- `^h-?D+$`: the shape shared by the three `NUMBER_MATCHERS` regexes. -/
def matchesNum (h : Char) (digitOk : Char → Bool) : List Char → Bool
  | [] => false
  | c :: rest =>
    c == h &&
      (match rest with
       | '-' :: ds => !ds.isEmpty && ds.all digitOk
       | ds => !ds.isEmpty && ds.all digitOk)

/-- Classification of a bare literal: opcode, register, number (hex, then
binary, then decimal, matched against the lower-cased text), else label
with original case preserved. -/
def classifyLiteral (lit : List Char) : Token :=
  let lower := lit.map charLower
  let lowerStr := String.mk lower
  if OPCODES.contains lowerStr then ⟨.OPCODE, lowerStr⟩
  else if REGISTER_NAMES.contains lowerStr then ⟨.REGISTER, lowerStr⟩
  else if matchesNum 'x' isHexDigitCh lower then ⟨.HEX, lowerStr⟩
  else if matchesNum 'b' isBinDigitCh lower then ⟨.BINARY, lowerStr⟩
  else if matchesNum '#' isDigitCh lower then ⟨.DECIMAL, lowerStr⟩
  else ⟨.LABEL, String.mk lit⟩

/-- The main loop of `Lexer.tokenize`, one fuel unit per iteration.  Every
iteration of the source loop advances `currentPosition` by at least one, so
`length + 1` fuel suffices (proved below). -/
def tokenizeAux : Nat → List Char → List Token → Except AsmErr (List Token)
  | 0, _, _ => .error .lexFuel
  | _ + 1, [], acc => .ok (acc ++ [⟨.EOF, ""⟩])
  | fuel + 1, c :: cs, acc =>
    if isTokenSeparator c ∧ c ≠ '\n' ∧ c ≠ ';' then
      tokenizeAux fuel cs acc
    else if c = '\n' then
      tokenizeAux fuel ((c :: cs).dropWhile (fun d => d == '\n'))
        (acc ++ [⟨.NEW_LINE, "\n"⟩])
    else if c = ';' then
      tokenizeAux fuel ((c :: cs).dropWhile (fun d => d != '\n')) acc
    else
      let m := matchDirs TOKEN_MATCHERS (c :: cs) acc
      if m.2.2 then
        tokenizeAux fuel m.1 m.2.1
      else if c = '"' then
        match scanString cs with
        | .error err => .error err
        | .ok (content, rest) =>
          tokenizeAux fuel rest (acc ++ [⟨.STRING, String.mk content⟩])
      else
        tokenizeAux fuel (cs.dropWhile (fun d => !isTokenSeparator d))
          (acc ++ [classifyLiteral (c :: cs.takeWhile (fun d => !isTokenSeparator d))])

/-- `Lexer.tokenize`. -/
def tokenize (input : String) : Except AsmErr (List Token) :=
  tokenizeAux (input.data.length + 1) input.data []

/-! ## JavaScript numbers in the assembler

`NaN` and `undefined` are modelled as `none : Option Int`; every comparison
against them is false and every arithmetic operation propagates them, which
coincides with the JavaScript semantics at each use site of the assembler. -/

/-- `NaN`-propagating addition (`locationCounter += …`). -/
def jsAddO (a b : Option Int) : Option Int :=
  match a, b with
  | some x, some y => some (x + y)
  | _, _ => none

/-- `NaN`/`undefined`-propagating subtraction (`symbolTable[text] - lc`). -/
def jsSubO (a b : Option Int) : Option Int :=
  match a, b with
  | some x, some y => some (x - y)
  | _, _ => none

/-- Digit value as used by JavaScript `parseInt`. -/
def digitVal (c : Char) : Option Nat :=
  if '0' ≤ c ∧ c ≤ '9' then some (c.toNat - '0'.toNat)
  else if 'a' ≤ c ∧ c ≤ 'z' then some (c.toNat - 'a'.toNat + 10)
  else if 'A' ≤ c ∧ c ≤ 'Z' then some (c.toNat - 'A'.toNat + 10)
  else none

/-- `parseInt`'s digit loop: parse greedily, stop at the first character
that is not a digit of the radix, `NaN` (`none`) when no digit was read. -/
def parseDigits (radix : Nat) : List Char → Nat → Bool → Option Nat
  | [], acc, seen => if seen then some acc else none
  | c :: rest, acc, seen =>
    match digitVal c with
    | some d =>
      if d < radix then parseDigits radix rest (acc * radix + d) true
      else if seen then some acc else none
    | none => if seen then some acc else none

/-- JavaScript `parseInt(s, radix)` for the whitespace-free strings the
assembler feeds it. -/
def parseIntJS (radix : Nat) (cs : List Char) : Option Int :=
  match cs with
  | '-' :: rest => (parseDigits radix rest 0 false).map (fun n => -(n : Int))
  | '+' :: rest => (parseDigits radix rest 0 false).map (fun n => (n : Int))
  | _ => (parseDigits radix cs 0 false).map (fun n => (n : Int))

/-- `Assembler.numLitToInt`: dispatch on the leading radix character, then
`parseInt` of the rest of the text. -/
def numLitToInt (numStr : String) : Option Int :=
  match numStr.data with
  | '#' :: rest => parseIntJS 10 rest
  | 'x' :: rest => parseIntJS 16 rest
  | 'b' :: rest => parseIntJS 2 rest
  | _ => none

/-- `Assembler.numToBin`.  For every integer (and for `NaN`, which the
bitwise operators coerce to `0`) the source computes the value modulo
`2 ^ bits`: for `num ≥ 0` via `num & mask` and for `num < 0` via
`(num >>> 0) & mask`, both of which reduce the value mod `2 ^ bits` because
`bits ≤ 32`. -/
def numToBin (num : Option Int) (bits : Nat) : Nat :=
  match num with
  | none => 0
  | some n => (n % ((2 : Int) ^ bits)).toNat

/-- `Assembler.NUMBER_TYPES`. -/
def NUMBER_TYPES : List TokenType := [.BINARY, .HEX, .DECIMAL]

/-- The symbol table: a JavaScript object mapping label text to a number
(possibly `NaN`).  Assignment prepends; lookup takes the most recent
binding, and an absent key behaves as `none` downstream exactly like
JavaScript's `undefined` does here. -/
abbrev SymTab : Type := List (String × Option Int)

/-- `symbolTable[label] = lc`. -/
def symAssign (sym : SymTab) (k : String) (v : Option Int) : SymTab :=
  (k, v) :: sym

/-- `symbolTable[label]`. -/
def symLookup (sym : SymTab) (k : String) : Option Int :=
  match sym.find? (fun p => p.1 == k) with
  | some p => p.2
  | none => none

/-- `Assembler.expectToken`: advance to the next token, demand one of the
allowed kinds, and for numeric literals check the optional bit-width bound
`[-2^(bits-1), 2^bits)` and the (never enabled) `unsigned` constraint.
`NaN` passes every comparison, as in JavaScript.  An empty token list
corresponds to reading past the end of the token array, on which the source
would crash; it cannot happen on lexer output, which always ends in EOF. -/
def expectTok (toks : List Token) (allowed : List TokenType)
    (bits : Option Nat) (unsigned : Bool) : Except AsmErr (Token × List Token) :=
  match toks with
  | [] => .error .endOfTokens
  | t :: rest =>
    if !(allowed.contains t.type) then
      .error (.unexpectedToken t.text)
    else if NUMBER_TYPES.contains t.type then
      match numLitToInt t.text with
      | none => .ok (t, rest)
      | some n =>
        match bits with
        | some b =>
          if n < -((2 : Int) ^ (b - 1)) ∨ (2 : Int) ^ b ≤ n then
            .error (.numberOutOfRange n)
          else if unsigned ∧ n < 0 then .error (.unsignedExpected n)
          else .ok (t, rest)
        | none =>
          if unsigned ∧ n < 0 then .error (.unsignedExpected n)
          else .ok (t, rest)
    else .ok (t, rest)

/-- `Assembler.passOne`, one fuel unit per iteration of the token loop. -/
def passOneAux : Nat → List Token → Option Int → SymTab → Except AsmErr SymTab
  | 0, _, _, _ => .error .passFuel
  | _ + 1, [], _, _ => .error .endOfTokens
  | fuel + 1, t :: rest, lc, sym =>
    match t.type with
    | .EOF => .ok sym
    | .BLKW => do
      let (sub, rest2) ← expectTok rest NUMBER_TYPES none false
      passOneAux fuel rest2 (jsAddO lc (numLitToInt sub.text)) sym
    | .STRINGZ => do
      let (sub, rest2) ← expectTok rest [.STRING] none false
      passOneAux fuel rest2 (jsAddO lc (some ((sub.text.length : Int) + 1))) sym
    | .ORIG => do
      let (sub, rest2) ← expectTok rest NUMBER_TYPES none false
      passOneAux fuel rest2 (numLitToInt sub.text) sym
    | .END => passOneAux fuel rest none sym
    | .FILL => do
      let (_, rest2) ← expectTok rest (.LABEL :: NUMBER_TYPES) none false
      passOneAux fuel rest2 (jsAddO lc (some 1)) sym
    | .OPCODE =>
      let lc1 := jsAddO lc (some 1)
      match t.text with
      | "add" | "and" => do
        let (_, r2) ← expectTok rest [.REGISTER] none false
        let (_, r3) ← expectTok r2 [.REGISTER] none false
        let (_, r4) ← expectTok r3 (.REGISTER :: NUMBER_TYPES) (some 5) false
        passOneAux fuel r4 lc1 sym
      | "not" => do
        let (_, r2) ← expectTok rest [.REGISTER] none false
        let (_, r3) ← expectTok r2 [.REGISTER] none false
        passOneAux fuel r3 lc1 sym
      | "ld" | "ldi" | "st" | "sti" | "lea" => do
        let (_, r2) ← expectTok rest [.REGISTER] none false
        let (_, r3) ← expectTok r2 (.LABEL :: NUMBER_TYPES) (some 9) false
        passOneAux fuel r3 lc1 sym
      | "str" | "ldr" => do
        let (_, r2) ← expectTok rest [.REGISTER] none false
        let (_, r3) ← expectTok r2 [.REGISTER] none false
        let (_, r4) ← expectTok r3 (.LABEL :: NUMBER_TYPES) (some 6) false
        passOneAux fuel r4 lc1 sym
      | "trap" => do
        let (_, r2) ← expectTok rest NUMBER_TYPES (some 12) false
        passOneAux fuel r2 lc1 sym
      | "jmp" => do
        let (_, r2) ← expectTok rest [.REGISTER] none false
        passOneAux fuel r2 lc1 sym
      | "jsr" => do
        let (_, r2) ← expectTok rest (.LABEL :: NUMBER_TYPES) (some 11) false
        passOneAux fuel r2 lc1 sym
      | "jsrr" => do
        let (_, r2) ← expectTok rest [.REGISTER] none false
        passOneAux fuel r2 lc1 sym
      | "br" | "brnzp" | "brn" | "brz" | "brp" | "brnz" | "brnp" | "brzp" => do
        let (_, r2) ← expectTok rest (.LABEL :: NUMBER_TYPES) (some 9) false
        passOneAux fuel r2 lc1 sym
      | _ => passOneAux fuel rest lc1 sym
    | .LABEL => passOneAux fuel rest lc (symAssign sym t.text lc)
    | .NEW_LINE => passOneAux fuel rest lc sym
    | _ => .error (.unexpectedToken t.text)

/-- `Assembler.registerToBin`: `parseInt` of the text after the leading
`r`, then `numToBin` with the default 16 bits. -/
def registerToBin (t : Token) : Nat :=
  numToBin (parseIntJS 10 (t.text.data.drop 1)) 16

/-- `Assembler.labelOrNumToBin`.  Note that `absAddr` defaults to `false`
at every call site except none — pass 2's `.FILL` case also passes only
`(subToken, locationCounter, 16)`. -/
def labelOrNumToBin (sym : SymTab) (t : Token) (lc : Option Int)
    (bits : Nat) (absAddr : Bool) : Nat :=
  let num : Option Int :=
    if NUMBER_TYPES.contains t.type then numLitToInt t.text
    else if absAddr then symLookup sym t.text
    else jsSubO (symLookup sym t.text) lc
  numToBin num bits

/-- `Assembler.passTwo`, one fuel unit per iteration of the token loop. -/
def passTwoAux : Nat → SymTab → List Token → Option Int → List Nat →
    Except AsmErr (List Nat)
  | 0, _, _, _, _ => .error .passFuel
  | _ + 1, _, [], _, _ => .error .endOfTokens
  | fuel + 1, sym, t :: rest, lc, acc =>
    match t.type with
    | .EOF => .ok acc
    | .BLKW => do
      let (sub, rest2) ← expectTok rest NUMBER_TYPES none false
      let num := numLitToInt sub.text
      let words := List.replicate (num.getD 0).toNat 0
      passTwoAux fuel sym rest2 (jsAddO lc num) (acc ++ words)
    | .STRINGZ => do
      let (sub, rest2) ← expectTok rest [.STRING] none false
      let words := sub.text.data.map (fun c => numToBin (some (c.toNat : Int)) 16)
      passTwoAux fuel sym rest2 (jsAddO lc (some ((sub.text.length : Int) + 1)))
        (acc ++ words ++ [0])
    | .ORIG => do
      let (sub, rest2) ← expectTok rest NUMBER_TYPES none false
      let num := numLitToInt sub.text
      let acc2 := if lc.isNone then acc ++ [numToBin num 16] else acc
      passTwoAux fuel sym rest2 num acc2
    | .END => passTwoAux fuel sym rest none acc
    | .FILL => do
      let (sub, rest2) ← expectTok rest (.LABEL :: NUMBER_TYPES) none false
      passTwoAux fuel sym rest2 (jsAddO lc (some 1))
        (acc ++ [labelOrNumToBin sym sub lc 16 false])
    | .OPCODE =>
      let lc1 := jsAddO lc (some 1)
      match t.text with
      | "add" | "and" => do
        let (a1, r2) ← expectTok rest [.REGISTER] none false
        let (a2, r3) ← expectTok r2 [.REGISTER] none false
        let (a3, r4) ← expectTok r3 (.REGISTER :: NUMBER_TYPES) (some 5) false
        let base := if t.text = "add" then (0b0001 <<< 12 : Nat) else (0b0101 <<< 12 : Nat)
        let i1 := (base ||| (registerToBin a1 <<< 9)) ||| (registerToBin a2 <<< 6)
        let instruction :=
          if a3.type = .REGISTER then i1 ||| registerToBin a3
          else (i1 ||| (1 <<< 5)) ||| numToBin (numLitToInt a3.text) 5
        passTwoAux fuel sym r4 lc1 (acc ++ [instruction])
      | "not" => do
        let (a1, r2) ← expectTok rest [.REGISTER] none false
        let (a2, r3) ← expectTok r2 [.REGISTER] none false
        let instruction :=
          ((0b1001 <<< 12 : Nat) ||| (registerToBin a1 <<< 9)) ||| (registerToBin a2 <<< 6)
        passTwoAux fuel sym r3 lc1 (acc ++ [instruction])
      | "ld" | "ldi" | "st" | "sti" | "lea" => do
        let (a1, r2) ← expectTok rest [.REGISTER] none false
        let (a2, r3) ← expectTok r2 (.LABEL :: NUMBER_TYPES) (some 9) false
        let base : Nat :=
          if t.text = "ld" then 0b0010 <<< 12
          else if t.text = "ldi" then 0b1010 <<< 12
          else if t.text = "lea" then 0b1110 <<< 12
          else if t.text = "st" then 0b0011 <<< 12
          else 0b1011 <<< 12
        let instruction :=
          (base ||| (registerToBin a1 <<< 9)) ||| labelOrNumToBin sym a2 lc1 9 false
        passTwoAux fuel sym r3 lc1 (acc ++ [instruction])
      | "str" | "ldr" => do
        let (a1, r2) ← expectTok rest [.REGISTER] none false
        let (a2, r3) ← expectTok r2 [.REGISTER] none false
        let (a3, r4) ← expectTok r3 (.LABEL :: NUMBER_TYPES) (some 6) false
        let base := if t.text = "ldr" then (0b0110 <<< 12 : Nat) else (0b0111 <<< 12 : Nat)
        let instruction :=
          ((base ||| (registerToBin a1 <<< 9)) ||| (registerToBin a2 <<< 6)) |||
            labelOrNumToBin sym a3 lc1 6 false
        passTwoAux fuel sym r4 lc1 (acc ++ [instruction])
      | "trap" => do
        let (a1, r2) ← expectTok rest NUMBER_TYPES (some 12) false
        let instruction := (0b1111 <<< 12 : Nat) ||| numToBin (numLitToInt a1.text) 12
        passTwoAux fuel sym r2 lc1 (acc ++ [instruction])
      | "getc" => passTwoAux fuel sym rest lc1 (acc ++ [0b1111000000100000])
      | "out" => passTwoAux fuel sym rest lc1 (acc ++ [0b1111000000100001])
      | "puts" => passTwoAux fuel sym rest lc1 (acc ++ [0b1111000000100010])
      | "in" => passTwoAux fuel sym rest lc1 (acc ++ [0b1111000000100011])
      | "putsp" => passTwoAux fuel sym rest lc1 (acc ++ [0b1111000000100100])
      | "halt" => passTwoAux fuel sym rest lc1 (acc ++ [0b1111000000100101])
      | "jmp" => do
        -- The source builds the instruction word but never pushes it onto
        -- `machineCode`; the discarded binding mirrors that.
        let (a1, r2) ← expectTok rest [.REGISTER] none false
        let _ := (0b1100 <<< 12 : Nat) ||| (registerToBin a1 <<< 6)
        passTwoAux fuel sym r2 lc1 acc
      | "ret" => passTwoAux fuel sym rest lc1 (acc ++ [0b1100000111000000])
      | "rti" => passTwoAux fuel sym rest lc1 (acc ++ [0b1000000000000000])
      | "jsr" => do
        let (a1, r2) ← expectTok rest (.LABEL :: NUMBER_TYPES) (some 11) false
        let instruction :=
          (((0b0100 <<< 12 : Nat)) ||| (1 <<< 11)) ||| labelOrNumToBin sym a1 lc1 11 false
        passTwoAux fuel sym r2 lc1 (acc ++ [instruction])
      | "jsrr" => do
        let (a1, r2) ← expectTok rest [.REGISTER] none false
        let instruction := (0b0100 <<< 12 : Nat) ||| (registerToBin a1 <<< 6)
        passTwoAux fuel sym r2 lc1 (acc ++ [instruction])
      | "br" | "brnzp" | "brn" | "brz" | "brp" | "brnz" | "brnp" | "brzp" => do
        let nBit := if t.text.data.contains 'n' then (0b100 : Nat) else 0
        let zBit := if t.text.data.contains 'z' then (0b010 : Nat) else 0
        let pBit := if t.text.data.contains 'p' then (0b001 : Nat) else 0
        let mask0 := (nBit ||| zBit) ||| pBit
        let mask := if mask0 = 0 then (0x7 : Nat) else mask0
        let (a1, r2) ← expectTok rest (.LABEL :: NUMBER_TYPES) (some 9) false
        let instruction :=
          (((0b0000 <<< 12 : Nat)) ||| (mask <<< 9)) ||| labelOrNumToBin sym a1 lc1 9 false
        passTwoAux fuel sym r2 lc1 (acc ++ [instruction])
      | _ => passTwoAux fuel sym rest lc1 acc
    | .LABEL => passTwoAux fuel sym rest lc acc
    | .NEW_LINE => passTwoAux fuel sym rest lc acc
    | _ => .error (.unexpectedToken t.text)

/-- `Assembler.loadProgram`: tokenize, pass 1, pass 2. -/
def assemble (src : String) : Except AsmErr (List Nat) := do
  let toks ← tokenize src
  let sym ← passOneAux (toks.length + 1) toks none []
  passTwoAux (toks.length + 1) sym toks none []

/-! ## The virtual machine (src/cpu.ts)

`createMemory` (src/memory.ts) is not among the sources.  Modelled from the
spec: the data model prescribes a "65536-word flat array of 16-bit words"
and that "all stored register and memory values fit in 16 bits", i.e. a
`Uint16Array`: writes store the value reduced mod 2^16, out-of-range writes
are discarded, out-of-range reads yield `undefined` (here `none`).  The
numeric values of the `Flag`, `OPCode` and `TRAPCode` enums (whose files
are likewise absent) are taken from the spec: flags POS=1, ZRO=2, NEG=4;
opcodes are the instruction words' top four bits as listed in the encoding
table; trap codes GETC=0x20 … HALT=0x25. -/

/-- `CPU.MEM_SIZE`. -/
def MEM_SIZE : Nat := 65536

/-- `MMRegister.KBSR`. -/
def KBSR : Nat := 0xFE00

/-- `MMRegister.KBDR`. -/
def KBDR : Nat := 0xFE02

/-- `Flag.POS`. -/
def POS : Nat := 1

/-- `Flag.ZRO`. -/
def ZRO : Nat := 2

/-- `Flag.NEG`. -/
def NEG : Nat := 4

/-- A `Uint16Array` write: value truncated to 16 bits, out-of-range index
discarded. -/
def memSet (mem : Nat → Nat) (a v : Nat) : Nat → Nat :=
  fun b => if a < MEM_SIZE ∧ b = a then v % MEM_SIZE else mem b

/-- A `Uint16Array` read: `undefined` (`none`) beyond the end. -/
def memGet (mem : Nat → Nat) (a : Nat) : Option Nat :=
  if a < MEM_SIZE then some (mem a) else none

/-- A write to the 10-element register `Uint16Array`; all register indices
used by the interpreter are in range, so no bound check is needed. -/
def regSet (regs : Nat → Nat) (i v : Nat) : Nat → Nat :=
  fun j => if j = i then v % MEM_SIZE else regs j

/-- The machine state: registers (indices 0–7 general, 8 = RPC, 9 = RCOND),
memory, the scripted input stream consumed by `io.getChar()`, the stream of
character codes written through `io.putChar`/`io.print`, and the `running`
flag of `CPU.run`. -/
structure VM where
  regs : Nat → Nat
  mem : Nat → Nat
  input : List Nat
  output : List Nat
  running : Bool

/-- `CPU.memRead`: polls the IO provider when the address is KBSR, storing
key status/data into memory, then returns the (possibly just-updated)
memory word.  A `getChar` result of 0 is falsy in the source's `if(input)`. -/
def memReadVM (mem : Nat → Nat) (inp : List Nat) (a : Nat) :
    Option Nat × (Nat → Nat) × List Nat :=
  if a = KBSR then
    let c := inp.headD 0
    let mem2 :=
      if c ≠ 0 then memSet (memSet mem KBSR (1 <<< 15)) KBDR c
      else memSet mem KBSR 0
    (memGet mem2 a, mem2, inp.tail)
  else (memGet mem a, mem, inp)

/-- `CPU.memRead` applied to a possibly-`undefined` address (the result of
a previous out-of-range read, as happens in the LDI case): JavaScript's
`undefined` is not equal to KBSR and indexing with it yields `undefined`. -/
def memReadVMOpt (mem : Nat → Nat) (inp : List Nat) (a : Option Nat) :
    Option Nat × (Nat → Nat) × List Nat :=
  match a with
  | none => (none, mem, inp)
  | some addr => memReadVM mem inp addr

/-- `CPU.signExtend`. -/
def signExtend (x : Nat) (bitCount : Nat) : Nat :=
  (if (x >>> (bitCount - 1)) &&& 1 = 1 then x ||| (0xFFFF <<< bitCount) else x) &&& 0xFFFF

/-- The flag value computed by `CPU.updateFlags` from a stored register
value. -/
def flagOf (v : Nat) : Nat :=
  if v = 0 then ZRO else if v >>> 15 ≠ 0 then NEG else POS

/-- `CPU.updateFlags`. -/
def updateFlags (regs : Nat → Nat) (r : Nat) : Nat → Nat :=
  regSet regs 9 (flagOf (regs r))

/-- JavaScript `~x & 0xffff` for a stored 16-bit value `x`: two's-complement
negation minus one, truncated to 16 bits. -/
def notJS (x : Nat) : Nat := 0xFFFF - (x % MEM_SIZE)

/-- The address of LDI's first (indirect) memory read, exactly as the
source computes it: `this.registers[Register.RPC] + pcOffset` — with no
`& 0xffff`, unlike every other addressing case of the interpreter. -/
def ldiFirstAddress (rpc instr : Nat) : Nat :=
  rpc + signExtend (instr &&& 0x1FF) 9

/-- The PUTS trap loop: put the word at `address`, increment, stop at a
zero word (or at `undefined` once `address` runs past the end of memory,
which is what terminates the source's unmasked `address++` loop).  Each
iteration moves one address up, so `MEM_SIZE + 1` fuel is never
exhausted. -/
def putsLoop : Nat → (Nat → Nat) → List Nat → Nat → List Nat →
    (Nat → Nat) × List Nat × List Nat
  | 0, mem, inp, _, out => (mem, inp, out)
  | fuel + 1, mem, inp, addr, out =>
    match memReadVM mem inp addr with
    | (none, mem2, inp2) => (mem2, inp2, out)
    | (some 0, mem2, inp2) => (mem2, inp2, out)
    | (some c, mem2, inp2) => putsLoop fuel mem2 inp2 (addr + 1) (out ++ [c])

/-- The PUTSP trap loop: low byte, then high byte if nonzero. -/
def putspLoop : Nat → (Nat → Nat) → List Nat → Nat → List Nat →
    (Nat → Nat) × List Nat × List Nat
  | 0, mem, inp, _, out => (mem, inp, out)
  | fuel + 1, mem, inp, addr, out =>
    match memReadVM mem inp addr with
    | (none, mem2, inp2) => (mem2, inp2, out)
    | (some 0, mem2, inp2) => (mem2, inp2, out)
    | (some c, mem2, inp2) =>
      let char1 := c &&& 0xFF
      let char2 := c >>> 8
      let out2 := if char2 ≠ 0 then out ++ [char1, char2] else out ++ [char1]
      putspLoop fuel mem2 inp2 (addr + 1) out2

/-- The character codes of a string printed through `io.print`. -/
def printCodes (s : String) : List Nat := s.data.map Char.toNat

/-- The fetch of `CPU.run`: `memRead(registers[RPC]++)`. -/
def fetchTriple (s : VM) : Option Nat × (Nat → Nat) × List Nat :=
  memReadVM s.mem s.input (s.regs 8)

/-- The instruction word fetched by the next iteration of `CPU.run`. -/
def fetchWord (s : VM) : Nat := (fetchTriple s).1.getD 0

/-- One iteration of the `while (running)` loop of `CPU.run`: fetch at RPC
(post-incrementing it), dispatch on the top four bits.  Reserved opcodes
RES (13) and RTI (8) throw "Unused op code", as does the `default` case. -/
def step (s : VM) : Except String VM :=
  let ft := fetchTriple s
  let instr := ft.1.getD 0
  let mem1 := ft.2.1
  let inp1 := ft.2.2
  let regs1 := regSet s.regs 8 (s.regs 8 + 1)
  match instr >>> 12 with
  | 0 => -- BR
    let pcOffset := signExtend (instr &&& 0x1FF) 9
    let condFlags := (instr >>> 9) &&& 0x7
    let regs2 :=
      if condFlags &&& regs1 9 ≠ 0 then
        regSet regs1 8 ((regs1 8 + pcOffset) &&& 0xFFFF)
      else regs1
    .ok ⟨regs2, mem1, inp1, s.output, s.running⟩
  | 1 => -- ADD
    let r0 := (instr >>> 9) &&& 0x7
    let r1 := (instr >>> 6) &&& 0x7
    let immFlag := (instr >>> 5) &&& 0x1
    let v :=
      if immFlag ≠ 0 then (regs1 r1 + signExtend (instr &&& 0x1F) 5) &&& 0xFFFF
      else (regs1 r1 + regs1 (instr &&& 0x7)) &&& 0xFFFF
    let regs2 := regSet regs1 r0 v
    .ok ⟨updateFlags regs2 r0, mem1, inp1, s.output, s.running⟩
  | 5 => -- AND
    let r0 := (instr >>> 9) &&& 0x7
    let r1 := (instr >>> 6) &&& 0x7
    let immFlag := (instr >>> 5) &&& 0x1
    let v :=
      if immFlag ≠ 0 then regs1 r1 &&& signExtend (instr &&& 0x1F) 5
      else regs1 r1 &&& regs1 (instr &&& 0x7)
    let regs2 := regSet regs1 r0 v
    .ok ⟨updateFlags regs2 r0, mem1, inp1, s.output, s.running⟩
  | 9 => -- NOT
    let r0 := (instr >>> 9) &&& 0x7
    let r1 := (instr >>> 6) &&& 0x7
    let regs2 := regSet regs1 r0 (notJS (regs1 r1))
    .ok ⟨updateFlags regs2 r0, mem1, inp1, s.output, s.running⟩
  | 12 => -- JMP
    let baseReg := (instr >>> 6) &&& 0x7
    .ok ⟨regSet regs1 8 (regs1 baseReg), mem1, inp1, s.output, s.running⟩
  | 4 => -- JSR
    let regs2 := regSet regs1 7 (regs1 8)
    let offsetFlag := (instr >>> 11) &&& 1
    let regs3 :=
      if offsetFlag ≠ 0 then
        regSet regs2 8 ((regs2 8 + signExtend (instr &&& 0x7FF) 11) &&& 0xFFFF)
      else regSet regs2 8 (regs2 ((instr >>> 6) &&& 0x7))
    .ok ⟨regs3, mem1, inp1, s.output, s.running⟩
  | 2 => -- LD
    let r0 := (instr >>> 9) &&& 0x7
    let pcOffset := signExtend (instr &&& 0x1FF) 9
    let rd := memReadVM mem1 inp1 ((regs1 8 + pcOffset) &&& 0xFFFF)
    let regs2 := regSet regs1 r0 (rd.1.getD 0)
    .ok ⟨updateFlags regs2 r0, rd.2.1, rd.2.2, s.output, s.running⟩
  | 10 => -- LDI: the first read's address is NOT reduced mod 2^16
    let r0 := (instr >>> 9) &&& 0x7
    let inner := memReadVM mem1 inp1 (ldiFirstAddress (regs1 8) instr)
    let outer := memReadVMOpt inner.2.1 inner.2.2 inner.1
    let regs2 := regSet regs1 r0 (outer.1.getD 0)
    .ok ⟨updateFlags regs2 r0, outer.2.1, outer.2.2, s.output, s.running⟩
  | 6 => -- LDR
    let r0 := (instr >>> 9) &&& 0x7
    let baseReg := (instr >>> 6) &&& 0x7
    let offset := signExtend (instr &&& 0x3F) 6
    let rd := memReadVM mem1 inp1 ((regs1 baseReg + offset) &&& 0xFFFF)
    let regs2 := regSet regs1 r0 (rd.1.getD 0)
    .ok ⟨updateFlags regs2 r0, rd.2.1, rd.2.2, s.output, s.running⟩
  | 14 => -- LEA
    let r0 := (instr >>> 9) &&& 0x7
    let pcOffset := signExtend (instr &&& 0x1FF) 9
    let regs2 := regSet regs1 r0 ((regs1 8 + pcOffset) &&& 0xFFFF)
    .ok ⟨updateFlags regs2 r0, mem1, inp1, s.output, s.running⟩
  | 3 => -- ST
    let r0 := (instr >>> 9) &&& 0x7
    let pcOffset := signExtend (instr &&& 0x1FF) 9
    let mem2 := memSet mem1 ((regs1 8 + pcOffset) &&& 0xFFFF) (regs1 r0)
    .ok ⟨regs1, mem2, inp1, s.output, s.running⟩
  | 11 => -- STI
    let r0 := (instr >>> 9) &&& 0x7
    let pcOffset := signExtend (instr &&& 0x1FF) 9
    let inner := memReadVM mem1 inp1 ((regs1 8 + pcOffset) &&& 0xFFFF)
    let mem2 := memSet inner.2.1 (inner.1.getD 0) (regs1 r0)
    .ok ⟨regs1, mem2, inner.2.2, s.output, s.running⟩
  | 7 => -- STR
    let r0 := (instr >>> 9) &&& 0x7
    let baseReg := (instr >>> 6) &&& 0x7
    let offset := signExtend (instr &&& 0x3F) 6
    let mem2 := memSet mem1 ((regs1 baseReg + offset) &&& 0xFFFF) (regs1 r0)
    .ok ⟨regs1, mem2, inp1, s.output, s.running⟩
  | 15 => -- TRAP
    let regs2 := regSet regs1 7 (regs1 8)
    match instr &&& 0xFF with
    | 0x20 => -- GETC
      let c := inp1.headD 0
      let regs3 := regSet regs2 0 c
      .ok ⟨updateFlags regs3 0, mem1, inp1.tail, s.output, s.running⟩
    | 0x21 => -- OUT
      .ok ⟨regs2, mem1, inp1, s.output ++ [regs2 0], s.running⟩
    | 0x22 => -- PUTS
      let r := putsLoop (MEM_SIZE + 1) mem1 inp1 (regs2 0) s.output
      .ok ⟨regs2, r.1, r.2.1, r.2.2, s.running⟩
    | 0x23 => -- IN
      let out1 := s.output ++ printCodes "Enter a character: "
      let c := inp1.headD 0
      let regs3 := regSet regs2 0 c
      .ok ⟨updateFlags regs3 0, mem1, inp1.tail, out1 ++ [c], s.running⟩
    | 0x24 => -- PUTSP
      let r := putspLoop (MEM_SIZE + 1) mem1 inp1 (regs2 0) s.output
      .ok ⟨regs2, r.1, r.2.1, r.2.2, s.running⟩
    | 0x25 => -- HALT
      .ok ⟨regs2, mem1, inp1, s.output ++ printCodes "HALT\n", false⟩
    | _ => .ok ⟨regs2, mem1, inp1, s.output, s.running⟩
  | _ => .error "Unused op code"

/-- `CPU.init`: RCOND ← ZRO, then RPC ← 0x3000, on a freshly loaded
machine. -/
def initVM (regs0 mem0 : Nat → Nat) (inp : List Nat) : VM :=
  ⟨regSet (regSet regs0 9 ZRO) 8 0x3000, mem0, inp, [], true⟩

/-- One iteration of `CPU.run`'s loop relates `a` to `b` when the loop is
still running and the dispatch does not throw. -/
def StepTo (a b : VM) : Prop := a.running = true ∧ step a = Except.ok b

/-- The states `CPU.run` can pass through, starting from `a`. -/
def Reaches (a b : VM) : Prop := Relation.ReflTransGen StepTo a b

/-- The destination register of an instruction that ends in `updateFlags`,
if any: ADD, AND, NOT, LD, LDI, LDR, LEA write the DR field; the GETC and
IN traps write R0. -/
def flagDest (instr : Nat) : Option Nat :=
  match instr >>> 12 with
  | 1 | 5 | 9 | 2 | 10 | 6 | 14 => some ((instr >>> 9) &&& 0x7)
  | 15 => if instr &&& 0xFF = 0x20 ∨ instr &&& 0xFF = 0x23 then some 0 else none
  | _ => none

/-- Sign class of a stored word as the spec states it: ZRO if the value is
zero, NEG if bit 15 is set, POS otherwise. -/
def signClass (v : Nat) : Nat :=
  if v = 0 then ZRO else if v.testBit 15 then NEG else POS

/-! ## Loaders (src/cpu.ts) and the object serializer -/

/-- Big-endian 16-bit read of `Buffer.readUint16BE`. -/
def readUint16BE (bytes : List Nat) (i : Nat) : Nat :=
  256 * bytes.getD i 0 + bytes.getD (i + 1) 0

/-- The write loop of `CPU.loadImage`: `count` iterations starting at
`pos`, storing word `pos+1` of the image at `origin + pos`. -/
def loadImageGo (bytes : List Nat) (origin : Nat) :
    (Nat → Nat) → Nat → Nat → Nat → Nat
  | mem, _, 0 => mem
  | mem, pos, count + 1 =>
    loadImageGo bytes origin
      (memSet mem (origin + pos) (readUint16BE bytes ((pos + 1) * 2))) (pos + 1) count

/-- `CPU.loadImage`.  The loop `while ((pos + 1) * 2 < image.length)` runs
exactly `(length - 1) / 2` times. -/
def loadImage (mem : Nat → Nat) (bytes : List Nat) : Nat → Nat :=
  loadImageGo bytes (readUint16BE bytes 0) mem 0 ((bytes.length - 1) / 2)

/-- The write loop of `CPU.loadArray`. -/
def loadArrayGo (origin : Nat) : (Nat → Nat) → List Nat → Nat → Nat → Nat
  | mem, [], _ => mem
  | mem, w :: ws, pos => loadArrayGo origin (memSet mem (origin + pos) w) ws (pos + 1)

/-- `CPU.loadArray`: `memory[array[0] + pos] = array[pos]` for every index,
the origin word itself included. -/
def loadArray (mem : Nat → Nat) (array : List Nat) : Nat → Nat :=
  loadArrayGo (array.headD 0) mem array 0

/-- `Assembler.asArrayBuffer`: each word written big-endian
(`DataView.setUint16` truncates to 16 bits). -/
def serializeWords (ws : List Nat) : List Nat :=
  ws.flatMap (fun w => [(w % MEM_SIZE) / 256, (w % MEM_SIZE) % 256])

/-! ## Helper definitions for the statements below -/

/-- The pass-2 instructions that can take a label operand, with the number
of register operands preceding it and the width of the PC-relative offset
field. -/
def labelOps : List (String × Nat × Nat) :=
  [("br", 0, 9), ("brnzp", 0, 9), ("brn", 0, 9), ("brz", 0, 9), ("brp", 0, 9),
   ("brnz", 0, 9), ("brnp", 0, 9), ("brzp", 0, 9), ("jsr", 0, 11),
   ("ld", 1, 9), ("ldi", 1, 9), ("st", 1, 9), ("sti", 1, 9), ("lea", 1, 9),
   ("ldr", 2, 6), ("str", 2, 6)]

/-- The word pass 2 pushes for a label-operand instruction, given the
mnemonic, its register-operand tokens, and the already-encoded offset
field; each branch is the corresponding `instruction` expression of
`passTwoAux`. -/
def labelOpWord (m : String) (pre : List Token) (off : Nat) : Nat :=
  if m = "jsr" then (((0b0100 <<< 12 : Nat)) ||| (1 <<< 11)) ||| off
  else if m = "ldr" ∨ m = "str" then
    let base := if m = "ldr" then (0b0110 <<< 12 : Nat) else (0b0111 <<< 12 : Nat)
    ((base ||| (registerToBin (pre.headD ⟨.EOF, ""⟩) <<< 9)) |||
      (registerToBin ((pre.drop 1).headD ⟨.EOF, ""⟩) <<< 6)) ||| off
  else if m = "ld" ∨ m = "ldi" ∨ m = "st" ∨ m = "sti" ∨ m = "lea" then
    let base : Nat :=
      if m = "ld" then 0b0010 <<< 12
      else if m = "ldi" then 0b1010 <<< 12
      else if m = "lea" then 0b1110 <<< 12
      else if m = "st" then 0b0011 <<< 12
      else 0b1011 <<< 12
    (base ||| (registerToBin (pre.headD ⟨.EOF, ""⟩) <<< 9)) ||| off
  else
    let nBit := if m.data.contains 'n' then (0b100 : Nat) else 0
    let zBit := if m.data.contains 'z' then (0b010 : Nat) else 0
    let pBit := if m.data.contains 'p' then (0b001 : Nat) else 0
    let mask0 := (nBit ||| zBit) ||| pBit
    let mask := if mask0 = 0 then (0x7 : Nat) else mask0
    (((0b0000 <<< 12 : Nat)) ||| (mask <<< 9)) ||| off

/-- The successor state of `step`, with a default for the throwing case;
used to name the result of a concrete step. -/
def stepD (s d : VM) : VM :=
  match step s with
  | .ok v => v
  | .error _ => d

/-- A concrete machine for witnesses: memory holds `ADD R0, R0, #-1`
(word 0x103F) at the start address. -/
def addWitnessVM : VM :=
  initVM (fun _ => 0) (fun a => if a = 0x3000 then 0x103F else 0) []

/-! ## Theorems -/

deriving instance DecidableEq for Except

/-- Every encoded field is smaller than `2 ^ bits`. -/
theorem numToBin_lt (x : Option Int) (bits : Nat) : numToBin x bits < 2 ^ bits := by
  match x with
  | none =>
    simp only [numToBin]
    positivity
  | some n =>
    simp only [numToBin]
    have hcast : ((2 : Int) ^ bits) = ((2 ^ bits : Nat) : Int) := by push_cast; ring
    have hlt := Int.emod_lt_of_pos n (b := (2 : Int) ^ bits) (by positivity)
    have hge := Int.emod_nonneg n (b := (2 : Int) ^ bits) (by positivity)
    rw [hcast] at hlt hge
    omega

/-- A multiple of `2 ^ s` has no bits below `s`. -/
theorem shiftLeft_mod_two_pow (a s n : Nat) (h : n ≤ s) : (a <<< s) % 2 ^ n = 0 := by
  rw [Nat.shiftLeft_eq]
  exact Nat.mod_eq_zero_of_dvd (Dvd.dvd.mul_left (Nat.pow_dvd_pow 2 h) a)

/-- Bits below `n` of a value divisible by `2 ^ n` are clear. -/
theorem testBit_false_of_mod_two_pow {x n : Nat} (h : x % 2 ^ n = 0) {i : Nat}
    (hi : i < n) : x.testBit i = false := by
  have ht := Nat.testBit_mod_two_pow x n i
  rw [h, Nat.zero_testBit] at ht
  simpa [hi] using ht.symm

/-- Disjunction of two values with clear low bits has clear low bits. -/
theorem or_mod_two_pow_zero {x y n : Nat} (hx : x % 2 ^ n = 0) (hy : y % 2 ^ n = 0) :
    (x ||| y) % 2 ^ n = 0 := by
  apply Nat.eq_of_testBit_eq
  intro i
  rw [Nat.zero_testBit, Nat.testBit_mod_two_pow, Nat.testBit_lor]
  by_cases hi : i < n
  · simp [hi, testBit_false_of_mod_two_pow hx hi, testBit_false_of_mod_two_pow hy hi]
  · simp [hi]

/-- Extracting the low `n` bits of `x ||| y` recovers `y` when `x` has no
low bits and `y` fits. -/
theorem or_mod_two_pow_eq (x y n : Nat) (hx : x % 2 ^ n = 0) (hy : y < 2 ^ n) :
    (x ||| y) % 2 ^ n = y := by
  apply Nat.eq_of_testBit_eq
  intro i
  rw [Nat.testBit_mod_two_pow, Nat.testBit_lor]
  by_cases hi : i < n
  · simp [hi, testBit_false_of_mod_two_pow hx hi]
  · have hyb : y.testBit i = false :=
      Nat.testBit_lt_two_pow
        (lt_of_lt_of_le hy (Nat.pow_le_pow_right (by omega) (by omega)))
    simp [hi, hyb]

/-- `Except.bind` of a success. -/
theorem except_bind_ok {ε α β : Type} (a : α) (f : α → Except ε β) :
    (Except.ok a : Except ε α) >>= f = f a := rfl

/-- `Except.bind` of a failure. -/
theorem except_bind_error {ε α β : Type} (e : ε) (f : α → Except ε β) :
    (Except.error e : Except ε α) >>= f = Except.error e := rfl

/-- C1 counterexample: the source program does not assemble to
`[0x3000, 0x1483]`; that word is not what the layout `0001 DR SR1 1 imm5`
yields for ADD R1, R2, #3. -/
theorem c1_counterexample :
    assemble ".ORIG x3000\nADD R1, R2, #3\n.END" ≠ Except.ok [0x3000, 0x1483] := by
  decide

/-- C1 (amended): assembling `.ORIG x3000\nADD R1, R2, #3\n.END` produces
exactly the word vector [0x3000, 0x12A3]; the second word is the encoding
of ADD R1, R2, #3 under the layout `0001 DR SR1 1 imm5`
(0001 001 010 1 00011). -/
theorem c1_add_immediate_assembly :
    assemble ".ORIG x3000\nADD R1, R2, #3\n.END" = Except.ok [0x3000, 0x12A3] := by
  decide

/-- C3: pass 2 consumes a JMP instruction and its register operand but
appends no word for it — the source builds `1100 000 BaseR 000000` and
never pushes it, so the assembled image holds only the origin header. -/
theorem c3_jmp_emits_no_word :
    assemble ".ORIG x3000\nJMP R2\n.END" = Except.ok [0x3000] := by
  decide

/-- C4: a string literal containing the unknown escape `\q` is lexed
without any error into a STRING token from which the escaped character has
been silently dropped; the source tests `escapeSequence === undefined`
instead of the looked-up `escaped`, so no exception is raised. -/
theorem c4_unknown_escape_is_silently_accepted :
    tokenize "\"\\q\"" = Except.ok [⟨.STRING, ""⟩, ⟨.EOF, ""⟩] := by
  decide

/-- C5 counterexample: a TRAP with the negative vector `#-1` is assembled
without any error, to `[0x3000, 0xFFFF]`; no non-negativity check exists
(the `unsigned` constraint of `expectToken` is never enabled). -/
theorem c5_counterexample :
    assemble ".ORIG x3000\nTRAP #-1\n.END" = Except.ok [0x3000, 0xFFFF] := by
  decide

/-- C6 counterexample: after an `.END` the location counter is NaN again,
so a second `.ORIG` DOES emit its address as an additional word: the
program `.ORIG x3000 / HALT / .END / .ORIG x4000 / HALT / .END` assembles
to four words whose third is the second origin 0x4000, not to three. -/
theorem c6_counterexample :
    assemble ".ORIG x3000\nHALT\n.END\n.ORIG x4000\nHALT\n.END"
        = Except.ok [0x3000, 0xF025, 0x4000, 0xF025]
      ∧ ([0x3000, 0xF025, 0x4000, 0xF025] : List Nat) ≠ [0x3000, 0xF025, 0xF025] := by
  constructor
  · decide
  · decide

/-- C7: the address of LDI's first (indirect) memory read is NOT reduced
modulo 2^16 before indexing memory: with RPC = 0x3001 and instruction
0xA1FF (offset9 = -1) the code computes 0x3001 + 0xFFFF = 0x13000, which
lies outside the 65536-word address space and differs from its reduction
0x3000. -/
theorem c7_ldi_first_address_not_reduced :
    ldiFirstAddress 0x3001 0xA1FF = 0x13000
      ∧ MEM_SIZE ≤ ldiFirstAddress 0x3001 0xA1FF
      ∧ ldiFirstAddress 0x3001 0xA1FF % 65536 = 0x3000
      ∧ ldiFirstAddress 0x3001 0xA1FF ≠ ldiFirstAddress 0x3001 0xA1FF % 65536 := by
  refine ⟨by decide, by decide, by decide, by decide⟩

/-- C9 counterexample: on the input `"\` (a string literal whose backslash
is the last character of the source) `tokenize` raises the unsupported
escape error instead of returning a token list. -/
theorem c9_counterexample : tokenize "\"\\" = Except.error AsmErr.badEscape := by
  decide

/-- C2: whenever pass 2 encodes an instruction that references a label
(the BR family, JSR, LD, LDI, LEA, ST, STI, and the offset operand of
LDR/STR), the word it appends carries in its low `width` bits exactly
`numToBin (symbols[label] - (LC_of_this_instruction + 1)) width`: the
location counter is incremented at instruction entry, so the `lc` passed
to `labelOrNumToBin` is already `LC + 1`, the PC value at execution time. -/
theorem c2_label_offsets_are_pc_relative
    (m : String) (argc width : Nat) (pre : List Token) (lbl : String)
    (rest : List Token) (fuel : Nat) (sym : SymTab) (lc : Option Int) (acc : List Nat)
    (hm : (m, argc, width) ∈ labelOps)
    (hlen : pre.length = argc)
    (hty : ∀ t ∈ pre, t.type = TokenType.REGISTER) :
    passTwoAux (fuel + 1) sym (⟨.OPCODE, m⟩ :: (pre ++ ⟨.LABEL, lbl⟩ :: rest)) lc acc
      = passTwoAux fuel sym rest (jsAddO lc (some 1))
          (acc ++ [labelOpWord m pre
            (numToBin (jsSubO (symLookup sym lbl) (jsAddO lc (some 1))) width)])
    ∧ labelOpWord m pre
        (numToBin (jsSubO (symLookup sym lbl) (jsAddO lc (some 1))) width) % 2 ^ width
      = numToBin (jsSubO (symLookup sym lbl) (jsAddO lc (some 1))) width := by
  fin_cases hm <;>
    rcases pre with _ | ⟨⟨ty1, tx1⟩, _ | ⟨⟨ty2, tx2⟩, _ | ⟨t3, pre⟩⟩⟩ <;>
    first
      | (simp only [List.length_cons, List.length_nil] at hlen
         omega)
      | exact ⟨rfl, or_mod_two_pow_eq _ _ _ (by decide) (numToBin_lt _ _)⟩
      | (obtain rfl : ty1 = TokenType.REGISTER := hty ⟨ty1, tx1⟩ (by simp)
         exact ⟨rfl, or_mod_two_pow_eq _ _ _
           (or_mod_two_pow_zero (by decide) (shiftLeft_mod_two_pow _ 9 9 (by omega)))
           (numToBin_lt _ _)⟩)
      | (obtain rfl : ty1 = TokenType.REGISTER := hty ⟨ty1, tx1⟩ (by simp)
         obtain rfl : ty2 = TokenType.REGISTER := hty ⟨ty2, tx2⟩ (by simp)
         exact ⟨rfl, or_mod_two_pow_eq _ _ _
           (or_mod_two_pow_zero
             (or_mod_two_pow_zero (by decide) (shiftLeft_mod_two_pow _ 9 6 (by omega)))
             (shiftLeft_mod_two_pow _ 6 6 (by omega)))
           (numToBin_lt _ _)⟩)

/-- Witness for C2 at `LD R0, FOO` with LC = 0x3000 and FOO at 0x3005. -/
theorem c2_witness :
    passTwoAux 2 [("FOO", some 0x3005)]
        (⟨.OPCODE, "ld"⟩ :: ([⟨.REGISTER, "r0"⟩] ++ ⟨.LABEL, "FOO"⟩ :: [⟨.EOF, ""⟩]))
        (some 0x3000) []
      = passTwoAux 1 [("FOO", some 0x3005)] [⟨.EOF, ""⟩] (jsAddO (some 0x3000) (some 1))
          ([] ++ [labelOpWord "ld" [⟨.REGISTER, "r0"⟩]
            (numToBin (jsSubO (symLookup [("FOO", some 0x3005)] "FOO")
              (jsAddO (some 0x3000) (some 1))) 9)])
    ∧ labelOpWord "ld" [⟨.REGISTER, "r0"⟩]
        (numToBin (jsSubO (symLookup [("FOO", some 0x3005)] "FOO")
          (jsAddO (some 0x3000) (some 1))) 9) % 2 ^ 9
      = numToBin (jsSubO (symLookup [("FOO", some 0x3005)] "FOO")
          (jsAddO (some 0x3000) (some 1))) 9 :=
  c2_label_offsets_are_pc_relative "ld" 1 9 [⟨.REGISTER, "r0"⟩] "FOO" [⟨.EOF, ""⟩]
    1 [("FOO", some 0x3005)] (some 0x3000) [] (by decide) (by decide) (by decide)

/-- C5 (amended): pass 2 validates a TRAP vector only against the signed
12-bit bound of `expectToken` — any numeric operand in `[-2^11, 2^12)`,
negative values included, is accepted and encoded modulo 2^12 after
`1111 << 12`; operands outside that range are fatal.  No non-negativity
(`unsigned`) check is performed. -/
theorem c5_trap_range_check (fuel : Nat) (sym : SymTab) (sub : Token)
    (rest : List Token) (lc : Option Int) (acc : List Nat) (n : Int)
    (hsub : sub.type ∈ NUMBER_TYPES) (hn : numLitToInt sub.text = some n) :
    ((-2048 ≤ n ∧ n < 4096) →
      passTwoAux (fuel + 1) sym (⟨.OPCODE, "trap"⟩ :: sub :: rest) lc acc
        = passTwoAux fuel sym rest (jsAddO lc (some 1))
            (acc ++ [(0b1111 <<< 12 : Nat) ||| numToBin (some n) 12]))
    ∧ ((n < -2048 ∨ 4096 ≤ n) →
      passTwoAux (fuel + 1) sym (⟨.OPCODE, "trap"⟩ :: sub :: rest) lc acc
        = .error (.numberOutOfRange n)) := by
  obtain ⟨ty, s⟩ := sub
  simp only [NUMBER_TYPES, List.mem_cons, List.not_mem_nil, or_false] at hsub
  simp only at hn
  constructor
  · intro hrange
    rcases hsub with rfl | rfl | rfl <;>
      simp [passTwoAux, expectTok, hn, NUMBER_TYPES, except_bind_ok, numToBin] <;>
      rw [if_neg (by push_neg; omega)] <;>
      simp [except_bind_ok, hn, numToBin]
  · intro hrange
    rcases hsub with rfl | rfl | rfl <;>
      simp [passTwoAux, expectTok, hn, NUMBER_TYPES, except_bind_ok, numToBin] <;>
      rw [if_pos (by omega)] <;>
      simp [except_bind_error]

/-- Witness for C5 at `TRAP #-1`: accepted and encoded as 0xF000 | 0xFFF. -/
theorem c5_witness :
    passTwoAux 2 [] (⟨.OPCODE, "trap"⟩ :: ⟨.DECIMAL, "#-1"⟩ :: [⟨.EOF, ""⟩]) none []
      = passTwoAux 1 [] [⟨.EOF, ""⟩] (jsAddO none (some 1))
          ([] ++ [(0b1111 <<< 12 : Nat) ||| numToBin (some (-1)) 12]) :=
  (c5_trap_range_check 1 [] ⟨.DECIMAL, "#-1"⟩ [⟨.EOF, ""⟩] none [] (-1)
    (by decide) (by decide)).1 (by norm_num)

/-- C6 (amended): in pass 2 an `.ORIG` emits its address word exactly when
the location counter is currently NaN — which is the case at the start of
the program and again after every `.END`.  Hence a second `.ORIG` that
follows an `.END` DOES append an additional header word, while an `.ORIG`
with no intervening `.END` does not. -/
theorem c6_orig_header_rule (fuel : Nat) (sym : SymTab) (txt : String) (sub : Token)
    (rest : List Token) (lc : Option Int) (acc : List Nat)
    (hsub : sub.type ∈ NUMBER_TYPES) :
    passTwoAux (fuel + 1) sym (⟨.ORIG, txt⟩ :: sub :: rest) lc acc
      = passTwoAux fuel sym rest (numLitToInt sub.text)
          (if lc.isNone then acc ++ [numToBin (numLitToInt sub.text) 16] else acc) := by
  obtain ⟨ty, s⟩ := sub
  simp only [NUMBER_TYPES, List.mem_cons, List.not_mem_nil, or_false] at hsub
  rcases hsub with rfl | rfl | rfl <;> cases lc <;>
    rcases hn : numLitToInt s with _ | n <;>
      simp [passTwoAux, expectTok, hn, NUMBER_TYPES, except_bind_ok]

/-- Witness for C6: an `.ORIG x4000` reached with LC = NaN (as after an
`.END`) pushes the word 0x4000. -/
theorem c6_witness :
    passTwoAux 2 [] (⟨.ORIG, ".orig"⟩ :: ⟨.HEX, "x4000"⟩ :: [⟨.EOF, ""⟩]) none
        [0x3000, 0xF025]
      = passTwoAux 1 [] [⟨.EOF, ""⟩] (numLitToInt "x4000")
          (if (none : Option Int).isNone then
            [0x3000, 0xF025] ++ [numToBin (numLitToInt "x4000") 16]
          else [0x3000, 0xF025]) :=
  c6_orig_header_rule 1 [] ".orig" ⟨.HEX, "x4000"⟩ [⟨.EOF, ""⟩] none
    [0x3000, 0xF025] (by decide)

/-- `loadArray`'s loop never touches addresses below `origin + pos`. -/
theorem loadArrayGo_preserve (origin : Nat) :
    ∀ (ws : List Nat) (mem : Nat → Nat) (pos a : Nat),
      a < origin + pos → loadArrayGo origin mem ws pos a = mem a := by
  intro ws
  induction ws with
  | nil => intro mem pos a h; rfl
  | cons w ws ih =>
    intro mem pos a h
    show loadArrayGo origin (memSet mem (origin + pos) w) ws (pos + 1) a = mem a
    rw [ih _ (pos + 1) a (by omega)]
    unfold memSet
    rw [if_neg (by omega)]

/-- `loadArray`'s loop stores word `j` of the remaining list at
`origin + pos + j`. -/
theorem loadArrayGo_get (origin : Nat) :
    ∀ (ws : List Nat) (mem : Nat → Nat) (pos j : Nat),
      j < ws.length → origin + pos + ws.length ≤ MEM_SIZE →
      loadArrayGo origin mem ws pos (origin + pos + j) = ws.getD j 0 % MEM_SIZE := by
  intro ws
  induction ws with
  | nil => intro mem pos j hj hb; simp at hj
  | cons w ws ih =>
    intro mem pos j hj hb
    cases j with
    | zero =>
      show loadArrayGo origin (memSet mem (origin + pos) w) ws (pos + 1)
          (origin + pos + 0) = (w :: ws).getD 0 0 % MEM_SIZE
      rw [loadArrayGo_preserve origin ws _ (pos + 1) _ (by omega)]
      unfold memSet
      simp only [List.length_cons] at hb
      rw [if_pos ⟨by omega, by omega⟩]
      simp [List.getD]
    | succ j =>
      have ha : origin + pos + (j + 1) = origin + (pos + 1) + j := by omega
      show loadArrayGo origin (memSet mem (origin + pos) w) ws (pos + 1)
          (origin + pos + (j + 1)) = (w :: ws).getD (j + 1) 0 % MEM_SIZE
      rw [ha, ih _ (pos + 1) j (by simpa using hj) (by simp at hb; omega)]
      simp [List.getD]

/-- `loadImage`'s loop never touches addresses below `origin + pos`. -/
theorem loadImageGo_preserve (bytes : List Nat) (origin : Nat) :
    ∀ (count : Nat) (mem : Nat → Nat) (pos a : Nat),
      a < origin + pos → loadImageGo bytes origin mem pos count a = mem a := by
  intro count
  induction count with
  | zero => intro mem pos a h; rfl
  | succ count ih =>
    intro mem pos a h
    show loadImageGo bytes origin
        (memSet mem (origin + pos) (readUint16BE bytes ((pos + 1) * 2))) (pos + 1) count a
      = mem a
    rw [ih _ (pos + 1) a (by omega)]
    unfold memSet
    rw [if_neg (by omega)]

/-- `loadImage`'s loop stores image word `pos + j + 1` at
`origin + pos + j`. -/
theorem loadImageGo_get (bytes : List Nat) (origin : Nat) :
    ∀ (count : Nat) (mem : Nat → Nat) (pos j : Nat),
      j < count → origin + pos + count ≤ MEM_SIZE →
      loadImageGo bytes origin mem pos count (origin + pos + j)
        = readUint16BE bytes ((pos + j + 1) * 2) % MEM_SIZE := by
  intro count
  induction count with
  | zero => intro mem pos j hj hb; omega
  | succ count ih =>
    intro mem pos j hj hb
    cases j with
    | zero =>
      show loadImageGo bytes origin
          (memSet mem (origin + pos) (readUint16BE bytes ((pos + 1) * 2))) (pos + 1) count
          (origin + pos + 0)
        = readUint16BE bytes ((pos + 0 + 1) * 2) % MEM_SIZE
      rw [loadImageGo_preserve bytes origin count _ (pos + 1) _ (by omega)]
      unfold memSet
      rw [if_pos ⟨by omega, by omega⟩]
    | succ j =>
      have ha : origin + pos + (j + 1) = origin + (pos + 1) + j := by omega
      have hb2 : origin + (pos + 1) + count ≤ MEM_SIZE := by omega
      show loadImageGo bytes origin
          (memSet mem (origin + pos) (readUint16BE bytes ((pos + 1) * 2))) (pos + 1) count
          (origin + pos + (j + 1))
        = readUint16BE bytes ((pos + (j + 1) + 1) * 2) % MEM_SIZE
      rw [ha, ih _ (pos + 1) j (by omega) hb2]
      congr 2
      omega

/-- Bytes `2i` and `2i+1` of the serialized image are the big-endian
halves of word `i`. -/
theorem serializeWords_getD :
    ∀ (ws : List Nat) (i : Nat), i < ws.length →
      (serializeWords ws).getD (2 * i) 0 = (ws.getD i 0 % MEM_SIZE) / 256
      ∧ (serializeWords ws).getD (2 * i + 1) 0 = (ws.getD i 0 % MEM_SIZE) % 256 := by
  intro ws
  induction ws with
  | nil => intro i hi; simp at hi
  | cons w ws ih =>
    intro i hi
    cases i with
    | zero => simp [serializeWords, List.getD]
    | succ i =>
      have h2 : 2 * (i + 1) = 2 * i + 2 := by omega
      have h3 : 2 * (i + 1) + 1 = 2 * i + 1 + 2 := by omega
      obtain ⟨ih1, ih2⟩ := ih i (by simpa using hi)
      constructor
      · rw [h2]
        simpa [serializeWords, List.getD] using ih1
      · rw [h3]
        simpa [serializeWords, List.getD] using ih2

/-- The serialized image has two bytes per word. -/
theorem serializeWords_length (ws : List Nat) :
    (serializeWords ws).length = 2 * ws.length := by
  induction ws with
  | nil => rfl
  | cons w ws ih => simp [serializeWords] at ih ⊢; omega

/-- Reading the serialized image back at byte offset `2i` recovers word
`i` (mod 2^16). -/
theorem readUint16BE_serialize (ws : List Nat) (i : Nat) (hi : i < ws.length) :
    readUint16BE (serializeWords ws) (2 * i) = ws.getD i 0 % MEM_SIZE := by
  obtain ⟨h1, h2⟩ := serializeWords_getD ws i hi
  rw [readUint16BE, h1, h2]
  omega
/-- C10: `loadArray` stores `v[k]` at `memory[v[0] + k]` for every index of
`v` — the origin word itself lands at `memory[v[0]]`, so program word
`v[1]` lands at `v[0] + 1`; `loadImage`, fed the big-endian serialization
of the same vector, stores program word `k` at `origin + k - 1`, one
address earlier. -/
theorem c10_loadArray_off_by_one_vs_loadImage (mem : Nat → Nat) (v : List Nat) (k : Nat)
    (hne : v ≠ []) (hw : ∀ w ∈ v, w < MEM_SIZE) (hb : v.headD 0 + v.length ≤ MEM_SIZE) :
    (k < v.length → loadArray mem v (v.headD 0 + k) = v.getD k 0)
    ∧ (1 ≤ k → k < v.length →
        loadImage mem (serializeWords v) (v.headD 0 + k - 1) = v.getD k 0) := by
  have hgetD : ∀ j, j < v.length → v.getD j 0 < MEM_SIZE := by
    intro j hj
    have hmem : v.getD j 0 ∈ v := by
      rw [List.getD_eq_getElem v 0 hj]
      exact List.getElem_mem hj
    exact hw _ hmem
  constructor
  · intro hk
    have h0 : v.headD 0 + k = v.headD 0 + 0 + k := by omega
    rw [loadArray, h0, loadArrayGo_get _ v mem 0 k hk (by omega)]
    exact Nat.mod_eq_of_lt (hgetD k hk)
  · intro h1 hk
    have hlen := serializeWords_length v
    have hvpos : 0 < v.length := by
      cases v
      · simp at hne
      · simp
    have horig : readUint16BE (serializeWords v) 0 = v.headD 0 := by
      have hr := readUint16BE_serialize v 0 hvpos
      simp only [Nat.mul_zero] at hr
      rw [hr, Nat.mod_eq_of_lt (hgetD 0 hvpos)]
      cases v
      · simp at hne
      · simp [List.getD]
    rw [loadImage, horig]
    have hK : ((serializeWords v).length - 1) / 2 = v.length - 1 := by rw [hlen]; omega
    rw [hK]
    have haddr : v.headD 0 + k - 1 = v.headD 0 + 0 + (k - 1) := by omega
    rw [haddr, loadImageGo_get _ _ (v.length - 1) mem 0 (k - 1) (by omega) (by omega)]
    have h2k : (0 + (k - 1) + 1) * 2 = 2 * k := by omega
    rw [h2k, readUint16BE_serialize v k hk, Nat.mod_eq_of_lt (hgetD k hk)]
    exact Nat.mod_eq_of_lt (hgetD k hk)

/-- Witness for C10 on the vector [0x3000, 0x1111, 0x2222] at k = 1. -/
theorem c10_witness :
    loadArray (fun _ => 0) [0x3000, 0x1111, 0x2222]
        (([0x3000, 0x1111, 0x2222] : List Nat).headD 0 + 1)
      = ([0x3000, 0x1111, 0x2222] : List Nat).getD 1 0
    ∧ loadImage (fun _ => 0) (serializeWords [0x3000, 0x1111, 0x2222])
        (([0x3000, 0x1111, 0x2222] : List Nat).headD 0 + 1 - 1)
      = ([0x3000, 0x1111, 0x2222] : List Nat).getD 1 0 :=
  ⟨(c10_loadArray_off_by_one_vs_loadImage (fun _ => 0) [0x3000, 0x1111, 0x2222] 1
      (by decide) (by decide) (by decide)).1 (by decide),
   (c10_loadArray_off_by_one_vs_loadImage (fun _ => 0) [0x3000, 0x1111, 0x2222] 1
      (by decide) (by decide) (by decide)).2 (by decide) (by decide)⟩


/-- Dropping a prefix never lengthens a list. -/
theorem length_dropWhile_le (p : Char → Bool) (l : List Char) :
    (l.dropWhile p).length ≤ l.length :=
  (List.dropWhile_sublist p).length_le

/-- A successful lookahead implies the input holds the whole key. -/
theorem lookaheadKey_le {key : String} {cs : List Char}
    (h : lookaheadKey key cs = true) : key.length ≤ cs.length := by
  unfold lookaheadKey at h
  have he : (cs.take key.length).map charLower = key.data := eq_of_beq h
  have hl := congrArg List.length he
  simp only [List.length_map, List.length_take] at hl
  have hk : key.data.length = key.length := rfl
  omega

/-- The matcher loop never grows the input, and shrinks it whenever it
reports a match (all keys being nonempty). -/
theorem matchDirs_length :
    ∀ (ms : List (String × TokenType)) (cs : List Char) (acc : List Token),
      (∀ p ∈ ms, 1 ≤ p.1.length) →
      (matchDirs ms cs acc).1.length ≤ cs.length ∧
      ((matchDirs ms cs acc).2.2 = true → (matchDirs ms cs acc).1.length < cs.length) := by
  intro ms
  induction ms with
  | nil =>
    intro cs acc hk
    refine ⟨Nat.le_refl _, ?_⟩
    intro h
    simp [matchDirs] at h
  | cons p ms ih =>
    intro cs acc hk
    obtain ⟨key, ty⟩ := p
    by_cases hl : lookaheadKey key cs
    · have hkey : 1 ≤ key.length := hk ⟨key, ty⟩ (by simp)
      have hle := lookaheadKey_le hl
      have ihr := ih (cs.drop key.length) (acc ++ [⟨ty, key⟩])
        (fun q hq => hk q (by simp [hq]))
      simp only [matchDirs, hl, if_true]
      have h1 := ihr.1
      simp only [List.length_drop] at h1
      exact ⟨by omega, fun _ => by omega⟩
    · simp only [matchDirs, hl, if_false]
      exact ih cs acc (fun q hq => hk q (by simp [hq]))

/-- The remainder returned by the string-literal scanner is no longer than
its input. -/
theorem scanString_length :
    ∀ (cs content rest : List Char), scanString cs = .ok (content, rest) →
      rest.length ≤ cs.length := by
  have hns : ¬('\\' = '"' ∨ '\\' = '\n') := by decide
  intro cs
  induction cs using scanString.induct with
  | case1 =>
    intro content rest h
    simp only [scanString, Except.ok.injEq, Prod.mk.injEq] at h
    simp [← h.2]
  | case2 e cs2 hterm =>
    intro content rest h
    rw [scanString.eq_def] at h
    simp only [hterm, ite_true, if_pos, Except.ok.injEq, Prod.mk.injEq] at h
    simp only [List.length_cons, ← h.2]
    omega
  | case3 hbs =>
    intro content rest h
    rw [show scanString ['\\'] = Except.error AsmErr.badEscape from rfl] at h
    exact Except.noConfusion h
  | case4 e cs2 err herr hbs ih =>
    intro content rest h
    simp only [scanString, hns, herr, ite_false, if_neg, if_pos, ite_true] at h
    exact Except.noConfusion h
  | case5 e cs2 content2 rest2 hok p hfind hbs ih =>
    intro content rest h
    simp only [scanString, hns, hok, hfind, ite_false, ite_true, if_neg, if_pos,
      Except.ok.injEq, Prod.mk.injEq] at h
    have := ih content2 rest2 hok
    simp only [List.length_cons, ← h.2]
    omega
  | case6 e cs2 content2 rest2 hok hfind hbs ih =>
    intro content rest h
    simp only [scanString, hns, hok, hfind, ite_false, ite_true, if_neg, if_pos,
      Except.ok.injEq, Prod.mk.injEq] at h
    have := ih content2 rest2 hok
    simp only [List.length_cons, ← h.2]
    omega
  | case7 e cs2 hterm hbs err herr ih =>
    intro content rest h
    rw [scanString.eq_def] at h
    simp only [hterm, hbs, herr, ite_false, ite_true, if_neg, if_pos] at h
    exact Except.noConfusion h
  | case8 e cs2 hterm hbs content2 rest2 hok ih =>
    intro content rest h
    rw [scanString.eq_def] at h
    simp only [hterm, hbs, hok, if_neg, Except.ok.injEq,
      Prod.mk.injEq, ite_false, ite_true] at h
    have := ih content2 rest2 hok
    simp only [List.length_cons, ← h.2]
    omega

/-- The only error the string-literal scanner raises is the unsupported
escape at end of input. -/
theorem scanString_error :
    ∀ (cs : List Char) (e : AsmErr), scanString cs = .error e → e = AsmErr.badEscape := by
  have hns : ¬('\\' = '"' ∨ '\\' = '\n') := by decide
  intro cs
  induction cs using scanString.induct with
  | case1 =>
    intro e h
    exact Except.noConfusion h
  | case2 c cs2 hterm =>
    intro e h
    rw [scanString.eq_def] at h
    simp only [hterm, ite_true, if_pos] at h
    exact Except.noConfusion h
  | case3 hbs =>
    intro e h
    rw [show scanString ['\\'] = Except.error AsmErr.badEscape from rfl] at h
    cases h
    rfl
  | case4 c cs2 err herr hbs ih =>
    intro e h
    simp only [scanString, hns, herr, ite_false, ite_true, if_neg, if_pos,
      Except.error.injEq] at h
    exact h ▸ ih err herr
  | case5 c cs2 content2 rest2 hok p hfind hbs ih =>
    intro e h
    simp only [scanString, hns, hok, hfind, ite_false, ite_true, if_neg, if_pos] at h
    exact Except.noConfusion h
  | case6 c cs2 content2 rest2 hok hfind hbs ih =>
    intro e h
    simp only [scanString, hns, hok, hfind, ite_false, ite_true, if_neg, if_pos] at h
    exact Except.noConfusion h
  | case7 c cs2 hterm hbs err herr ih =>
    intro e h
    rw [scanString.eq_def] at h
    simp only [hterm, hbs, herr, ite_false, ite_true, if_neg, if_pos,
      Except.error.injEq] at h
    exact h ▸ ih err herr
  | case8 c cs2 hterm hbs content2 rest2 hok ih =>
    intro e h
    rw [scanString.eq_def] at h
    simp only [hterm, hbs, hok, ite_false, ite_true, if_neg, if_pos] at h
    exact Except.noConfusion h

/-- Every successful run of the tokenizer loop ends its output with the
EOF token. -/
theorem tokenizeAux_ok_getLast :
    ∀ (fuel : Nat) (cs : List Char) (acc ts : List Token),
      tokenizeAux fuel cs acc = .ok ts → ts.getLast? = some ⟨.EOF, ""⟩ := by
  intro fuel
  induction fuel with
  | zero =>
    intro cs acc ts h
    simp [tokenizeAux] at h
  | succ fuel ih =>
    intro cs acc ts h
    cases cs with
    | nil =>
      simp only [tokenizeAux, Except.ok.injEq] at h
      subst h
      exact List.getLast?_concat _
    | cons c cs =>
      simp only [tokenizeAux] at h
      repeat' split at h
      all_goals first
        | exact ih _ _ _ h
        | simp at h

/-- The fuel `length + 1` given by `tokenize` is never exhausted: every
iteration of the source loop advances the position. -/
theorem tokenizeAux_no_fuel_error :
    ∀ (fuel : Nat) (cs : List Char) (acc : List Token),
      cs.length < fuel → tokenizeAux fuel cs acc ≠ .error .lexFuel := by
  intro fuel
  induction fuel with
  | zero =>
    intro cs acc h
    omega
  | succ fuel ih =>
    intro cs acc hlen
    cases cs with
    | nil => simp [tokenizeAux]
    | cons c cs =>
      have hlen2 : cs.length < fuel := by simp at hlen; omega
      simp only [tokenizeAux]
      split
      · exact ih cs acc hlen2
      · split
        · rename_i hc
          apply ih
          rw [List.dropWhile_cons]
          have hcb : (c == '\n') = true := by simp [hc]
          rw [if_pos hcb]
          have := length_dropWhile_le (fun d => d == '\n') cs
          omega
        · split
          · rename_i hsep hnl hc
            apply ih
            rw [List.dropWhile_cons]
            have hcb : (c != '\n') = true := by simp [hc]
            rw [if_pos hcb]
            have := length_dropWhile_le (fun d => d != '\n') cs
            omega
          · split
            · rename_i hflag
              apply ih
              have hmd := matchDirs_length TOKEN_MATCHERS (c :: cs) acc (by decide)
              have := hmd.2 hflag
              simp only [List.length_cons] at this
              omega
            · split
              · split
                · rename_i herr
                  intro hcontra
                  have hbe := scanString_error _ _ herr
                  rw [Except.error.injEq] at hcontra
                  rw [hcontra] at hbe
                  exact AsmErr.noConfusion hbe
                · rename_i content rest heq
                  apply ih
                  have := scanString_length cs content rest heq
                  omega
              · apply ih
                have := length_dropWhile_le (fun d => !isTokenSeparator d) cs
                omega

/-- The top-level lexer never runs out of fuel. -/
theorem tokenize_no_fuel_error (s : String) : tokenize s ≠ .error .lexFuel :=
  tokenizeAux_no_fuel_error _ _ _ (Nat.lt_succ_self _)

/-- C9 (amended): on every input the lexer terminates — its fuel bound is
never hit — and whenever it returns a token list (i.e. it does not raise
the unsupported-escape lex error, which it does on some inputs), the last
token of that list is EOF. -/
theorem c9_tokenize_terminates_eof_last (s : String) (ts : List Token) :
    tokenize s ≠ Except.error AsmErr.lexFuel
    ∧ (tokenize s = Except.ok ts → ts.getLast? = some ⟨TokenType.EOF, ""⟩) :=
  ⟨tokenize_no_fuel_error s, fun h => tokenizeAux_ok_getLast _ _ _ _ h⟩

/-- Witness for C9 on the input `.orig`. -/
theorem c9_witness :
    tokenize ".orig" ≠ Except.error AsmErr.lexFuel
    ∧ ([⟨TokenType.ORIG, ".orig"⟩, ⟨TokenType.EOF, ""⟩] : List Token).getLast?
        = some ⟨TokenType.EOF, ""⟩ :=
  ⟨(c9_tokenize_terminates_eof_last ".orig"
      [⟨TokenType.ORIG, ".orig"⟩, ⟨TokenType.EOF, ""⟩]).1,
   (c9_tokenize_terminates_eof_last ".orig"
      [⟨TokenType.ORIG, ".orig"⟩, ⟨TokenType.EOF, ""⟩]).2 (by decide)⟩

/-- `updateFlags` only ever computes one of the three flag values. -/
theorem flagOf_mem (v : Nat) : flagOf v = POS ∨ flagOf v = ZRO ∨ flagOf v = NEG := by
  unfold flagOf
  split
  · right; left; rfl
  · split
    · right; right; rfl
    · left; rfl

/-- Writing RPC leaves RCOND untouched. -/
theorem regSet8_rcond (regs : Nat → Nat) (v : Nat) : regSet regs 8 v 9 = regs 9 := by
  unfold regSet
  rw [if_neg (by omega)]

/-- Writing R7 leaves RCOND untouched. -/
theorem regSet7_rcond (regs : Nat → Nat) (v : Nat) : regSet regs 7 v 9 = regs 9 := by
  unfold regSet
  rw [if_neg (by omega)]

/-- Writing a register selected by a 3-bit field leaves RCOND
untouched. -/
theorem regSetAnd7_rcond (regs : Nat → Nat) (x v : Nat) :
    regSet regs (x &&& 7) v 9 = regs 9 := by
  unfold regSet
  have h7 := @Nat.and_le_right x 7
  rw [if_neg (by omega)]

/-- Reading back the register just written yields the masked value. -/
theorem regSet_at_self (regs : Nat → Nat) (i v : Nat) :
    regSet regs i v i = v % MEM_SIZE := by
  unfold regSet
  rw [if_pos rfl]

/-- After `updateFlags`, RCOND holds the computed flag. -/
theorem updateFlags_at_rcond (regs : Nat → Nat) (r : Nat) :
    updateFlags regs r 9 = flagOf (regs r) := by
  unfold updateFlags regSet
  rw [if_pos rfl]
  rcases flagOf_mem (regs r) with h | h | h <;> rw [h] <;> rfl

/-- `updateFlags` changes nothing but RCOND. -/
theorem updateFlags_at_ne9 (regs : Nat → Nat) (r j : Nat) (h : ¬ j = 9) :
    updateFlags regs r j = regs j := by
  unfold updateFlags regSet
  rw [if_neg h]

/-- For stored words, `updateFlags`'s `>> 15` test agrees with the
spec's bit-15 sign class. -/
theorem flagOf_eq_signClass (v : Nat) (h : v < MEM_SIZE) : flagOf v = signClass v := by
  unfold flagOf signClass
  by_cases h0 : v = 0
  · simp [h0]
  · simp only [h0, if_false]
    have hq : v >>> 15 = v / 2 ^ 15 := Nat.shiftRight_eq_div_pow v 15
    have ht : v.testBit 15 = decide (v / 2 ^ 15 % 2 = 1) := Nat.testBit_to_div_mod
    have hp : (2 : Nat) ^ 15 = 32768 := by norm_num
    have hlt : v / 32768 < 2 := by
      unfold MEM_SIZE at h
      omega
    rw [hq, ht, hp]
    by_cases hbit : v / 32768 = 0
    · simp [hbit]
    · have h1 : v / 32768 = 1 := by omega
      simp [h1]

/-- A register write followed by `updateFlags` leaves RCOND equal to the
sign class of the written register. -/
theorem updateFlags_regSet_signClass (regs : Nat → Nat) (r v : Nat) (hr : ¬ r = 9) :
    updateFlags (regSet regs r v) r 9
      = signClass (updateFlags (regSet regs r v) r r) := by
  rw [updateFlags_at_rcond, updateFlags_at_ne9 _ _ _ hr, regSet_at_self]
  exact flagOf_eq_signClass _ (Nat.mod_lt _ (by unfold MEM_SIZE; omega))

/-- Any successful step either leaves RCOND alone or sets it to one of
the three flag values: every general-register index written is `& 0x7`,
RPC is index 8 and R7 index 7, none of which is RCOND. -/
theorem step_rcond {s s2 : VM} (h : step s = Except.ok s2) :
    s2.regs 9 = s.regs 9 ∨ (s2.regs 9 = POS ∨ s2.regs 9 = ZRO ∨ s2.regs 9 = NEG) := by
  simp only [step] at h
  split at h
  · simp only [Except.ok.injEq] at h
    subst h
    left
    split <;> simp only [regSet8_rcond]
  · simp only [Except.ok.injEq] at h
    subst h
    right
    simp only [updateFlags_at_rcond]
    exact flagOf_mem _
  · simp only [Except.ok.injEq] at h
    subst h
    right
    simp only [updateFlags_at_rcond]
    exact flagOf_mem _
  · simp only [Except.ok.injEq] at h
    subst h
    right
    simp only [updateFlags_at_rcond]
    exact flagOf_mem _
  · simp only [Except.ok.injEq] at h
    subst h
    left
    simp only [regSet8_rcond]
  · simp only [Except.ok.injEq] at h
    subst h
    left
    split <;> simp only [regSet8_rcond, regSet7_rcond]
  · simp only [Except.ok.injEq] at h
    subst h
    right
    simp only [updateFlags_at_rcond]
    exact flagOf_mem _
  · simp only [Except.ok.injEq] at h
    subst h
    right
    simp only [updateFlags_at_rcond]
    exact flagOf_mem _
  · simp only [Except.ok.injEq] at h
    subst h
    right
    simp only [updateFlags_at_rcond]
    exact flagOf_mem _
  · simp only [Except.ok.injEq] at h
    subst h
    right
    simp only [updateFlags_at_rcond]
    exact flagOf_mem _
  · simp only [Except.ok.injEq] at h
    subst h
    left
    simp only [regSet8_rcond]
  · simp only [Except.ok.injEq] at h
    subst h
    left
    simp only [regSet8_rcond]
  · simp only [Except.ok.injEq] at h
    subst h
    left
    simp only [regSet8_rcond]
  · split at h
    · simp only [Except.ok.injEq] at h
      subst h
      right
      simp only [updateFlags_at_rcond]
      exact flagOf_mem _
    · simp only [Except.ok.injEq] at h
      subst h
      left
      simp only [regSet7_rcond, regSet8_rcond]
    · simp only [Except.ok.injEq] at h
      subst h
      left
      simp only [regSet7_rcond, regSet8_rcond]
    · simp only [Except.ok.injEq] at h
      subst h
      right
      simp only [updateFlags_at_rcond]
      exact flagOf_mem _
    · simp only [Except.ok.injEq] at h
      subst h
      left
      simp only [regSet7_rcond, regSet8_rcond]
    · simp only [Except.ok.injEq] at h
      subst h
      left
      simp only [regSet7_rcond, regSet8_rcond]
    · simp only [Except.ok.injEq] at h
      subst h
      left
      simp only [regSet7_rcond, regSet8_rcond]
  · exact Except.noConfusion h

/-- Whenever the fetched instruction is flag-updating (ADD, AND, NOT, LD,
LDI, LDR, LEA, or TRAP GETC/IN) with destination `r`, the state after the
step has RCOND equal to the sign class of register `r`. -/
theorem step_flag {s s2 : VM} {r : Nat} (h : step s = Except.ok s2)
    (hd : flagDest (fetchWord s) = some r) :
    s2.regs 9 = signClass (s2.regs r) := by
  simp only [flagDest, fetchWord] at hd
  split at hd
  · rename_i heq
    injection hd with hd2
    subst hd2
    simp only [step] at h
    rw [heq] at h
    simp only [Except.ok.injEq] at h
    subst h
    exact updateFlags_regSet_signClass _ _ _
      (by have := @Nat.and_le_right ((fetchTriple s).1.getD 0 >>> 9) 7; omega)
  · rename_i heq
    injection hd with hd2
    subst hd2
    simp only [step] at h
    rw [heq] at h
    simp only [Except.ok.injEq] at h
    subst h
    exact updateFlags_regSet_signClass _ _ _
      (by have := @Nat.and_le_right ((fetchTriple s).1.getD 0 >>> 9) 7; omega)
  · rename_i heq
    injection hd with hd2
    subst hd2
    simp only [step] at h
    rw [heq] at h
    simp only [Except.ok.injEq] at h
    subst h
    exact updateFlags_regSet_signClass _ _ _
      (by have := @Nat.and_le_right ((fetchTriple s).1.getD 0 >>> 9) 7; omega)
  · rename_i heq
    injection hd with hd2
    subst hd2
    simp only [step] at h
    rw [heq] at h
    simp only [Except.ok.injEq] at h
    subst h
    exact updateFlags_regSet_signClass _ _ _
      (by have := @Nat.and_le_right ((fetchTriple s).1.getD 0 >>> 9) 7; omega)
  · rename_i heq
    injection hd with hd2
    subst hd2
    simp only [step] at h
    rw [heq] at h
    simp only [Except.ok.injEq] at h
    subst h
    exact updateFlags_regSet_signClass _ _ _
      (by have := @Nat.and_le_right ((fetchTriple s).1.getD 0 >>> 9) 7; omega)
  · rename_i heq
    injection hd with hd2
    subst hd2
    simp only [step] at h
    rw [heq] at h
    simp only [Except.ok.injEq] at h
    subst h
    exact updateFlags_regSet_signClass _ _ _
      (by have := @Nat.and_le_right ((fetchTriple s).1.getD 0 >>> 9) 7; omega)
  · rename_i heq
    injection hd with hd2
    subst hd2
    simp only [step] at h
    rw [heq] at h
    simp only [Except.ok.injEq] at h
    subst h
    exact updateFlags_regSet_signClass _ _ _
      (by have := @Nat.and_le_right ((fetchTriple s).1.getD 0 >>> 9) 7; omega)
  · rename_i heq
    split at hd
    · rename_i hcond
      injection hd with hd2
      subst hd2
      simp only [step] at h
      rw [heq] at h
      rcases hcond with hc | hc <;> rw [hc] at h <;>
        simp only [Except.ok.injEq] at h <;> subst h <;>
        exact updateFlags_regSet_signClass _ _ _ (by omega)
    · exact Option.noConfusion hd
  · exact Option.noConfusion hd

/-- From initialization on, every reachable state has
RCOND ∈ {POS, ZRO, NEG}. -/
theorem reachable_rcond (regs0 mem0 : Nat → Nat) (inp : List Nat) (s : VM)
    (h : Reaches (initVM regs0 mem0 inp) s) :
    s.regs 9 = POS ∨ s.regs 9 = ZRO ∨ s.regs 9 = NEG := by
  induction h with
  | refl =>
    right; left
    simp only [initVM]
    rw [regSet8_rcond, regSet_at_self]
    decide
  | tail hab hstep ih =>
    rcases step_rcond hstep.2 with he | hmem
    · rw [he]
      exact ih
    · exact hmem
/-- C8: for every reachable VM state after initialization, RCOND is one of
{POS = 1, ZRO = 2, NEG = 4}; and immediately after any instruction that
updates flags on a general register `r`, RCOND equals the sign class of
`registers[r]`: ZRO if the value is zero, NEG if bit 15 is set, POS
otherwise. -/
theorem c8_rcond_invariant_and_flag_classes :
    (∀ (regs0 mem0 : Nat → Nat) (inp : List Nat) (s : VM),
        Reaches (initVM regs0 mem0 inp) s →
        s.regs 9 = POS ∨ s.regs 9 = ZRO ∨ s.regs 9 = NEG)
    ∧ (∀ (s s2 : VM) (r : Nat), step s = Except.ok s2 →
        flagDest (fetchWord s) = some r → s2.regs 9 = signClass (s2.regs r)) :=
  ⟨reachable_rcond, fun _ _ _ h hd => step_flag h hd⟩

/-- Witness for C8: the freshly initialized machine has RCOND = ZRO, and
one step of `ADD R0, R0, #-1` from R0 = 0 leaves RCOND equal to the sign
class (NEG) of the result 0xFFFF. -/
theorem c8_witness :
    (addWitnessVM.regs 9 = POS ∨ addWitnessVM.regs 9 = ZRO ∨ addWitnessVM.regs 9 = NEG)
    ∧ (stepD addWitnessVM addWitnessVM).regs 9
        = signClass ((stepD addWitnessVM addWitnessVM).regs 0) :=
  ⟨c8_rcond_invariant_and_flag_classes.1 (fun _ => 0)
      (fun a => if a = 0x3000 then 0x103F else 0) [] addWitnessVM
      Relation.ReflTransGen.refl,
   c8_rcond_invariant_and_flag_classes.2 addWitnessVM
      (stepD addWitnessVM addWitnessVM) 0 (by rfl) (by rfl)⟩

end LC3
